import Mathlib

/-!
Shallow embedding of the pruning decision-and-reconstruction engine of the
`smilepruning` repository, covering the reinitialization dispatch of
`Pruner.prune` (`src/pruner/l1_pruner.py`), the iterative approximate-isometry
optimizer, the unstructured-mask reapplication step of the training loop
(`src/main.py`), and the compression/speedup statistics block.

Real tensors are modelled with rational entries; a weight tensor is its shape
together with its flat (row-major) data.  The numerical content of the Adam
optimizer step and of the (out-of-repository) weight-redraw routines is
abstracted as explicit function parameters, so every theorem below holds for
every possible numeric behaviour of those parts; everything else (loop
structure, mask lookups and reapplication, dispatch, error raising, shape
bookkeeping) is translated directly from the Python source.
-/

namespace SmilePruning

/-- A tensor: its shape (`t.shape`) and its flat row-major data. -/
structure Tensor where
  shape : List Nat
  data : List ℚ
deriving DecidableEq

/-- Kind of a module returned by `model.named_modules()`; the code only
distinguishes `nn.Conv2d` / `nn.Linear` from everything else. -/
inductive ModuleKind where
  | conv2d
  | linear
  | other
deriving DecidableEq

/-- One named module of the model, with its weight tensor. -/
structure NNModule where
  name : String
  kind : ModuleKind
  weight : Tensor
deriving DecidableEq

/-- A model is its list of named modules, in `named_modules()` order. -/
abbrev Model := List NNModule

/-- The unstructured-pruning mask: a mapping from layer name to a tensor
shaped like that layer's weight (1 = kept, 0 = pruned), modelled as an
association list; `mask[name]` is `List.lookup`. -/
abbrev Mask := List (String × Tensor)

/-- `isinstance(m, (nn.Conv2d, nn.Linear))`. -/
def isConvOrLinear : ModuleKind → Bool
  | .conv2d => true
  | .linear => true
  | .other => false

/-- Elementwise tensor-data product, `torch.mul` / in-place `mul_`. -/
def tmul (a b : List ℚ) : List ℚ := List.zipWith (· * ·) a b

/-- Python truthiness of the string-or-`None` option values the code tests
with `if self.args.reinit:` (`none` = `None`; `some ""` is also falsy). -/
def pyTruthy : Option String → Bool
  | none => false
  | some s => !s.isEmpty

/-- Row `i` of an `r × c` matrix stored flat (row-major). -/
def row (c : Nat) (w : List ℚ) (i : Nat) : List ℚ := (w.drop (i * c)).take c

/-- Dot product of two flat vectors. -/
def dot (a b : List ℚ) : ℚ := (List.zipWith (· * ·) a b).sum

/-- Entry `(i, j)` of `W Wᵀ` for `W` an `r × c` flat matrix:
`torch.matmul(w_, w_.t())`. -/
def gram (c : Nat) (w : List ℚ) (i j : Nat) : ℚ := dot (row c w i) (row c w j)

/-- `nn.MSELoss()(torch.matmul(w_, w_.t()), identity)`: mean squared
difference between the Gram matrix of the `r × c` flattened weight and the
`r × r` identity. -/
def gramLoss (r c : Nat) (w : List ℚ) : ℚ :=
  if r = 0 then 0
  else (((List.range r).map (fun i =>
      ((List.range r).map (fun j =>
        (gram c w i j - (if i = j then 1 else 0)) ^ 2)).sum)).sum) / (r * r : ℚ)

/-- One iteration of the loop inside `optimize` (body of
`approximate_isometry_optimize`): compute the Gram MSE loss of the current
flattened weight, take one Adam step (abstracted as `step lr i`), then, when
a mask is present, multiply elementwise by `mask[name]` — a `KeyError` when
`name` is not a key of the mask.  The weight is then re-wrapped in a fresh
`Variable` with a fresh optimizer (state reset, absorbed into `step`); the
`i % 10 == 0` print only reads the loss.  Returns the new flattened weight
and the loss this iteration computed. -/
def optimizeIter (step : ℚ → Nat → List ℚ → List ℚ) (lr : ℚ) (r c : Nat)
    (mask : Option Mask) (name : String) (w : List ℚ) (i : Nat) :
    Except String (List ℚ × ℚ) :=
  let loss := gramLoss r c w
  let w1 := step lr i w
  match mask with
  | none => .ok (w1, loss)
  | some mk =>
    match mk.lookup name with
    | none => .error ("KeyError: " ++ name)
    | some mt => .ok (tmul w1 mt.data, loss)

/-- The loop `for i in range(n_iter)` of `optimize`, iterating from index `i`
with `k` iterations remaining; carries the current flattened weight together
with the list of losses computed so far (most recent first). -/
def optimizeLoop (step : ℚ → Nat → List ℚ → List ℚ) (lr : ℚ) (r c : Nat)
    (mask : Option Mask) (name : String) :
    Nat → Nat → List ℚ × List ℚ → Except String (List ℚ × List ℚ)
  | _, 0, st => .ok st
  | i, k + 1, st =>
    match optimizeIter step lr r c mask name st.1 i with
    | .error e => .error e
    | .ok (w1, loss) => optimizeLoop step lr r c mask name (i + 1) k (w1, loss :: st.2)

/-- `optimize(w)` inside `approximate_isometry_optimize`: flatten `w` to
shape `[w.size(0), -1]` (data unchanged), run the `n_iter`-iteration loop,
and view the result back to the original weight shape
(`w_.view(m.weight.shape)`).  Returns the final tensor together with the
trace of per-iteration losses (most recent first). -/
def optimize (step : ℚ → Nat → List ℚ → List ℚ) (lr : ℚ) (mask : Option Mask)
    (name : String) (n_iter : Nat) (w : Tensor) : Except String (Tensor × List ℚ) :=
  let r := w.shape.headD 0
  let c := w.data.length / r
  match optimizeLoop step lr r c mask name 0 n_iter (w.data, []) with
  | .error e => .error e
  | .ok (d, losses) => .ok ({ shape := w.shape, data := d }, losses)

/-- Body of the `model.named_modules()` loop of
`approximate_isometry_optimize` for one module: for an
`nn.Conv2d`/`nn.Linear` module, run `optimize` on its weight and copy the
result back (`m.weight.data.copy_(w_)`); other modules are untouched. -/
def aiModule (step : ℚ → Nat → List ℚ → List ℚ) (mask : Option Mask)
    (lr : ℚ) (n_iter : Nat) (m : NNModule) : Except String NNModule :=
  if isConvOrLinear m.kind then
    match optimize step lr mask m.name n_iter m.weight with
    | .error e => .error e
    | .ok (w1, _) => .ok { m with weight := w1 }
  else .ok m

/-- `approximate_isometry_optimize(model, mask, lr, n_iter)` from
`src/pruner/l1_pruner.py`: visit the named modules in order, running
`aiModule` on each; a raised `KeyError` aborts the whole pass.  (The Python
signature's `wg='weight'` default parameter is never read in the body.) -/
def approximate_isometry_optimize (step : ℚ → Nat → List ℚ → List ℚ)
    (model : Model) (mask : Option Mask) (lr : ℚ) (n_iter : Nat) :
    Except String Model :=
  match model with
  | [] => .ok []
  | m :: rest =>
    match aiModule step mask lr n_iter m with
    | .error e => .error e
    | .ok m' =>
      match approximate_isometry_optimize step rest mask lr n_iter with
      | .error e => .error e
      | .ok rest' => .ok (m' :: rest')

/-- Modelled from the spec: `orthogonalize_weights` is imported from `utils`,
whose source is not in the repository.  Per the spec it flattens the layer
weight to 2-D, replaces it with the nearest matrix with orthonormal rows or
columns via a QR-style decomposition, and "reinitialization never changes
tensor shape"; the numerical content is abstracted as the data transform
`orth`, the shape is preserved. -/
def orthogonalize_weights (orth : List ℚ → List ℚ) (w : Tensor) : Tensor :=
  { shape := w.shape, data := orth w.data }

/-- `exact_isometry_based_on_existing_weights(model)` from
`src/pruner/l1_pruner.py`: orthogonalize every `nn.Conv2d`/`nn.Linear`
weight based on its existing values and copy it back. -/
def exact_isometry_based_on_existing_weights (orth : List ℚ → List ℚ)
    (model : Model) : Model :=
  model.map (fun m =>
    if isConvOrLinear m.kind then { m with weight := orthogonalize_weights orth m.weight }
    else m)

/-- Modelled from the spec and the call-site comment: `_weights_init` is
imported from `utils` (not in the repository sources) and is applied through
`self.model.apply`, "completely reinit weights via 'kaiming_normal'" for
Conv/FC modules.  The random draw is abstracted as `draw` (layer name and
current weight to fresh data); an in-place init writes into the existing
tensor, so the shape is preserved.  Note the function receives no mask.
(Its BN branch is elided: no claim concerns BN parameters.) -/
def _weights_init (draw : String → Tensor → List ℚ) (model : Model) : Model :=
  model.map (fun m =>
    if isConvOrLinear m.kind then
      { m with weight := { shape := m.weight.shape, data := draw m.name m.weight } }
    else m)

/-- Modelled from the spec and the call-site comment: `_weights_init_orthogonal`
is imported from `utils` (not in the repository sources) and "completely
reinit weights via 'orthogonal_'" for Conv/FC modules; abstracted exactly
like `_weights_init`, with its own draw. -/
def _weights_init_orthogonal (draw : String → Tensor → List ℚ) (model : Model) : Model :=
  model.map (fun m =>
    if isConvOrLinear m.kind then
      { m with weight := { shape := m.weight.shape, data := draw m.name m.weight } }
    else m)

/-- The fields of the configuration object that the body of `Pruner.prune`
reads (`args.reinit`, `args.wg`, `args.lr_AI`).  `reinit` is `none` when the
Python value is `None`. -/
structure Args where
  reinit : Option String
  wg : String
  lr_AI : ℚ
deriving DecidableEq

/-- Body of `Pruner.prune` from `src/pruner/l1_pruner.py` after
`self._get_kept_wg_L1()` / `self._prune_and_build_new_model()` (both live in
`meta_pruner`, outside the repository sources): the already-pruned model and
the mask store `self.mask` they produce are taken as inputs.  `mask` is the
store when `args.wg == 'weight'` and `None` otherwise; then the dispatch on
`args.reinit`, with `raise NotImplementedError` on an unsupported truthy
name; the `approximate_isometry` branch calls
`approximate_isometry_optimize(self.model, mask=mask, lr=self.args.lr_AI,
n_iter=10000)`. -/
def Pruner.prune (draw drawOrth : String → Tensor → List ℚ)
    (orth : List ℚ → List ℚ) (step : ℚ → Nat → List ℚ → List ℚ)
    (args : Args) (model : Model) (maskStore : Mask) : Except String Model :=
  let mask : Option Mask := if args.wg = "weight" then some maskStore else none
  if pyTruthy args.reinit then
    if args.reinit = some "default" then
      .ok (_weights_init draw model)
    else if args.reinit = some "orth" then
      .ok (_weights_init_orthogonal drawOrth model)
    else if args.reinit = some "exact_isometry" then
      .ok (exact_isometry_based_on_existing_weights orth model)
    else if args.reinit = some "approximate_isometry" then
      approximate_isometry_optimize step model mask args.lr_AI 10000
    else
      .error "NotImplementedError"
  else
    .ok model

/-- Body of the `named_modules()` loop of `apply_mask_forward` for one
module: if the module's name is a key of the mask (`if name in mask:`),
multiply its weight data in place by the mask entry
(`m.weight.data.mul_(mask[name])`); otherwise skip it. -/
def amfModule (mask : Mask) (m : NNModule) : NNModule :=
  match mask.lookup m.name with
  | some mt =>
    { m with weight := { shape := m.weight.shape, data := tmul m.weight.data mt.data } }
  | none => m

/-- `apply_mask_forward(model)` from `src/main.py`: run `amfModule` over
every named module.  The process-global `mask` is passed explicitly. -/
def apply_mask_forward (mask : Mask) (model : Model) : Model :=
  model.map (amfModule mask)

/-- One iteration of the `train` loop of `src/main.py`: forward and backward
passes (which do not change the weights), `optimizer.step()` (abstracted as
`optimStep`, which may move every weight arbitrarily), then — guarded by
`if args.method and args.wg == 'weight':` — `apply_mask_forward(model)`. -/
def trainIter (optimStep : Nat → Model → Model) (method : Option String)
    (wg : String) (mask : Mask) (i : Nat) (model : Model) : Model :=
  let model1 := optimStep i model
  if pyTruthy method && wg = "weight" then apply_mask_forward mask model1
  else model1

/-- The first `k` iterations of the `train` loop (the per-epoch loop body is
the same for every epoch, so consecutive epochs compose these steps). -/
def trainSteps (optimStep : Nat → Model → Model) (method : Option String)
    (wg : String) (mask : Mask) : Nat → Model → Model
  | 0, model => model
  | k + 1, model =>
    trainIter optimStep method wg mask k (trainSteps optimStep method wg mask k model)

/-- `ratio_param = (n_params_original_v2 - n_params_now_v2) / n_params_original_v2`
from the statistics block of `main_worker` in `src/main.py` (floats modelled
as rationals). -/
def ratio_param (nBefore nAfter : ℚ) : ℚ := (nBefore - nAfter) / nBefore

/-- `ratio_flops = (n_flops_original_v2 - n_flops_now_v2) / n_flops_original_v2`. -/
def ratio_flops (fBefore fAfter : ℚ) : ℚ := (fBefore - fAfter) / fBefore

/-- `compression_ratio = 1.0 / (1 - ratio_param)`. -/
def compression_ratio (nBefore nAfter : ℚ) : ℚ := 1 / (1 - ratio_param nBefore nAfter)

/-- `speedup_ratio = 1.0 / (1 - ratio_flops)`. -/
def speedup_ratio (fBefore fAfter : ℚ) : ℚ := 1 / (1 - ratio_flops fBefore fAfter)

/-- Every pruned (mask-0) position of every model layer in the mask's domain
reads logical zero in that layer's weight data. -/
def maskedZero (mask : Mask) (model : Model) : Prop :=
  ∀ m ∈ model, ∀ mt, mask.lookup m.name = some mt →
    ∀ j : Nat, mt.data[j]? = some 0 → ∀ q, m.weight.data[j]? = some q → q = 0

/-- The mask is binary: every entry of every mask tensor is 0 or 1. -/
def binaryMask (mask : Mask) : Prop :=
  ∀ p ∈ mask, ∀ x ∈ p.2.data, x = 0 ∨ x = 1

/-- The frame/shape-preservation relation between the model entering a
reinitialization pass and the model leaving it: same module count and, per
position, unchanged name, kind and weight-tensor shape. -/
def framePreserved (model model' : Model) : Prop :=
  model'.length = model.length ∧
    ∀ (i : Nat) (hi : i < model.length) (hi' : i < model'.length),
      (model'.get ⟨i, hi'⟩).name = (model.get ⟨i, hi⟩).name
      ∧ (model'.get ⟨i, hi'⟩).kind = (model.get ⟨i, hi⟩).kind
      ∧ (model'.get ⟨i, hi'⟩).weight.shape = (model.get ⟨i, hi⟩).weight.shape

/-! ### Concrete fixtures used by witnesses and counterexamples -/

/-- A concrete abstract optimizer step: the identity (one possible Adam
behaviour at a stationary point). -/
def stepId : ℚ → Nat → List ℚ → List ℚ := fun _ _ w => w

/-- A concrete redraw writing 1 at every position (one possible
`kaiming_normal` / `orthogonal_` draw). -/
def drawOne : String → Tensor → List ℚ := fun _ w => w.data.map (fun _ => 1)

/-- A one-filter 1×1 convolution layer with weight value 5. -/
def cConv : NNModule :=
  { name := "conv1", kind := .conv2d, weight := { shape := [1, 1], data := [5] } }

/-- A mask tensor pruning (zeroing) `cConv`'s single weight entry. -/
def cMaskT : Tensor := { shape := [1, 1], data := [0] }

/-- A mask store covering `cConv`. -/
def cMask : Mask := [("conv1", cMaskT)]

/-! ### Helper lemmas -/

theorem tmul_getElem_zero :
    ∀ (a b : List ℚ) (j : Nat) (q : ℚ),
      (tmul a b)[j]? = some q → b[j]? = some 0 → q = 0
  | [], _, j, q => by simp [tmul]
  | _ :: _, [], j, q => by simp [tmul]
  | a :: as, b :: bs, 0, q => by
    simp only [tmul, List.zipWith_cons_cons, List.getElem?_cons_zero, Option.some_inj]
    rintro h rfl
    simp [← h]
  | a :: as, b :: bs, j + 1, q => by
    simp only [tmul, List.zipWith_cons_cons, List.getElem?_cons_succ]
    exact tmul_getElem_zero as bs j q

theorem tmul_idem :
    ∀ (a b : List ℚ), (∀ x ∈ b, x = 0 ∨ x = 1) → tmul (tmul a b) b = tmul a b
  | [], _, _ => by simp [tmul]
  | _ :: _, [], _ => by simp [tmul]
  | a :: as, b :: bs, hb => by
    have hhead : b * b = b := by
      rcases hb b (by simp) with h | h <;> simp [h]
    have htail := tmul_idem as bs (fun x hx => hb x (by simp [hx]))
    simp only [tmul, List.zipWith_cons_cons] at htail ⊢
    rw [mul_assoc, hhead, htail]

theorem lookup_mem {l : Mask} {k : String} {v : Tensor}
    (h : l.lookup k = some v) : (k, v) ∈ l := by
  induction l with
  | nil => simp [List.lookup] at h
  | cons p rest ih =>
    obtain ⟨a, b⟩ := p
    by_cases hk : k = a
    · subst hk
      have hbeq : (k == k) = true := beq_self_eq_true k
      simp only [List.lookup_cons, hbeq] at h
      cases h
      exact List.mem_cons_self _ _
    · have hbeq : (k == a) = false := beq_eq_false_iff_ne.2 hk
      simp only [List.lookup_cons, hbeq] at h
      exact List.mem_cons_of_mem _ (ih h)

theorem optimizeLoop_ok_len {step : ℚ → Nat → List ℚ → List ℚ} {lr : ℚ}
    {r c : Nat} {mask : Option Mask} {name : String} :
    ∀ (k i : Nat) (st st' : List ℚ × List ℚ),
      optimizeLoop step lr r c mask name i k st = .ok st' →
      st'.2.length = st.2.length + k := by
  intro k
  induction k with
  | zero =>
    intro i st st' h
    simp only [optimizeLoop] at h
    cases h
    rfl
  | succ k ih =>
    intro i st st' h
    simp only [optimizeLoop] at h
    cases hit : optimizeIter step lr r c mask name st.1 i with
    | error e => rw [hit] at h; cases h
    | ok p =>
      rw [hit] at h
      have := ih (i + 1) (p.1, p.2 :: st.2) st' h
      simp only [List.length_cons] at this
      omega

theorem optimizeLoop_none_ok {step : ℚ → Nat → List ℚ → List ℚ} {lr : ℚ}
    {r c : Nat} {name : String} :
    ∀ (k i : Nat) (st : List ℚ × List ℚ),
      ∃ st', optimizeLoop step lr r c none name i k st = .ok st' := by
  intro k
  induction k with
  | zero => exact fun i st => ⟨st, rfl⟩
  | succ k ih =>
    intro i st
    obtain ⟨st', h⟩ := ih (i + 1) (step lr i st.1, gramLoss r c st.1 :: st.2)
    exact ⟨st', by simp only [optimizeLoop, optimizeIter]; exact h⟩

theorem optimizeLoop_lookup_ok {step : ℚ → Nat → List ℚ → List ℚ} {lr : ℚ}
    {r c : Nat} {mk : Mask} {name : String} {mt : Tensor}
    (hlk : mk.lookup name = some mt) :
    ∀ (k i : Nat) (st : List ℚ × List ℚ),
      ∃ st', optimizeLoop step lr r c (some mk) name i k st = .ok st' ∧
        (1 ≤ k → ∃ x, st'.1 = tmul x mt.data) := by
  intro k
  induction k with
  | zero => exact fun i st => ⟨st, rfl, by omega⟩
  | succ k ih =>
    intro i st
    obtain ⟨st', h, hform⟩ :=
      ih (i + 1) (tmul (step lr i st.1) mt.data, gramLoss r c st.1 :: st.2)
    refine ⟨st', ?_, fun _ => ?_⟩
    · simp only [optimizeLoop, optimizeIter, hlk]
      exact h
    · cases k with
      | zero =>
        simp only [optimizeLoop] at h
        cases h
        exact ⟨step lr i st.1, rfl⟩
      | succ k => exact hform (by omega)

theorem optimizeLoop_lookup_none {step : ℚ → Nat → List ℚ → List ℚ} {lr : ℚ}
    {r c : Nat} {mk : Mask} {name : String}
    (hlk : mk.lookup name = none) (k i : Nat) (hk : 1 ≤ k)
    (st : List ℚ × List ℚ) :
    optimizeLoop step lr r c (some mk) name i k st
      = .error ("KeyError: " ++ name) := by
  cases k with
  | zero => omega
  | succ k => simp only [optimizeLoop, optimizeIter, hlk]

theorem optimize_ok_len {step : ℚ → Nat → List ℚ → List ℚ} {lr : ℚ}
    {mask : Option Mask} {name : String} {n : Nat} {w : Tensor}
    {res : Tensor × List ℚ}
    (h : optimize step lr mask name n w = .ok res) : res.2.length = n := by
  simp only [optimize] at h
  cases hl : optimizeLoop step lr (w.shape.headD 0) (w.data.length / w.shape.headD 0)
      mask name 0 n (w.data, []) with
  | error e => rw [hl] at h; cases h
  | ok st =>
    rw [hl] at h
    obtain ⟨d, losses⟩ := st
    cases h
    simpa using optimizeLoop_ok_len n 0 (w.data, []) (d, losses) hl

theorem optimize_ok_shape {step : ℚ → Nat → List ℚ → List ℚ} {lr : ℚ}
    {mask : Option Mask} {name : String} {n : Nat} {w : Tensor}
    {res : Tensor × List ℚ}
    (h : optimize step lr mask name n w = .ok res) : res.1.shape = w.shape := by
  simp only [optimize] at h
  cases hl : optimizeLoop step lr (w.shape.headD 0) (w.data.length / w.shape.headD 0)
      mask name 0 n (w.data, []) with
  | error e => rw [hl] at h; cases h
  | ok st =>
    rw [hl] at h
    obtain ⟨d, losses⟩ := st
    cases h
    rfl

theorem optimize_none_ok {step : ℚ → Nat → List ℚ → List ℚ} {lr : ℚ}
    {name : String} {n : Nat} {w : Tensor} :
    ∃ res, optimize step lr none name n w = .ok res := by
  obtain ⟨st, h⟩ := @optimizeLoop_none_ok step lr (w.shape.headD 0)
    (w.data.length / w.shape.headD 0) name n 0 (w.data, [])
  exact ⟨({ shape := w.shape, data := st.1 }, st.2), by simp only [optimize, h]⟩

theorem optimize_lookup_ok {step : ℚ → Nat → List ℚ → List ℚ} {lr : ℚ}
    {mk : Mask} {name : String} {mt : Tensor} {n : Nat} {w : Tensor}
    (hlk : mk.lookup name = some mt) :
    ∃ res, optimize step lr (some mk) name n w = .ok res ∧
      res.1.shape = w.shape ∧ (1 ≤ n → ∃ x, res.1.data = tmul x mt.data) := by
  obtain ⟨st, h, hform⟩ := @optimizeLoop_lookup_ok step lr (w.shape.headD 0)
    (w.data.length / w.shape.headD 0) mk name mt hlk n 0 (w.data, [])
  exact ⟨({ shape := w.shape, data := st.1 }, st.2),
    by simp only [optimize, h], rfl, hform⟩

theorem optimize_lookup_none {step : ℚ → Nat → List ℚ → List ℚ} {lr : ℚ}
    {mk : Mask} {name : String} {n : Nat} {w : Tensor}
    (hlk : mk.lookup name = none) (hn : 1 ≤ n) :
    optimize step lr (some mk) name n w = .error ("KeyError: " ++ name) := by
  simp only [optimize, optimizeLoop_lookup_none hlk n 0 hn]

theorem aiModule_ok_frame {step : ℚ → Nat → List ℚ → List ℚ}
    {mask : Option Mask} {lr : ℚ} {n : Nat} {m m' : NNModule}
    (h : aiModule step mask lr n m = .ok m') :
    m'.name = m.name ∧ m'.kind = m.kind ∧ m'.weight.shape = m.weight.shape := by
  simp only [aiModule] at h
  by_cases hc : isConvOrLinear m.kind
  · rw [if_pos hc] at h
    cases ho : optimize step lr mask m.name n m.weight with
    | error e => rw [ho] at h; cases h
    | ok p =>
      rw [ho] at h
      obtain ⟨w1, tr⟩ := p
      cases h
      exact ⟨rfl, rfl, optimize_ok_shape ho⟩
  · rw [if_neg hc] at h
    cases h
    exact ⟨rfl, rfl, rfl⟩

theorem ai_ok_pointwise {step : ℚ → Nat → List ℚ → List ℚ}
    {mask : Option Mask} {lr : ℚ} {n : Nat} :
    ∀ {model model' : Model},
      approximate_isometry_optimize step model mask lr n = .ok model' →
      model'.length = model.length ∧
        ∀ (i : Nat) (hi : i < model.length) (hi' : i < model'.length),
          aiModule step mask lr n (model.get ⟨i, hi⟩) = .ok (model'.get ⟨i, hi'⟩) := by
  intro model
  induction model with
  | nil =>
    intro model' h
    simp only [approximate_isometry_optimize] at h
    cases h
    exact ⟨rfl, fun i hi => absurd hi (by simp)⟩
  | cons m rest ih =>
    intro model' h
    simp only [approximate_isometry_optimize] at h
    cases hm : aiModule step mask lr n m with
    | error e => rw [hm] at h; cases h
    | ok m' =>
      rw [hm] at h
      cases hr : approximate_isometry_optimize step rest mask lr n with
      | error e => rw [hr] at h; cases h
      | ok rest' =>
        rw [hr] at h
        cases h
        obtain ⟨hlen, hget⟩ := ih hr
        refine ⟨by simpa using hlen, ?_⟩
        intro i hi hi'
        cases i with
        | zero => exact hm
        | succ i => exact hget i (by simpa using hi) (by simpa using hi')

theorem ai_all_ok {step : ℚ → Nat → List ℚ → List ℚ}
    {mask : Option Mask} {lr : ℚ} {n : Nat} :
    ∀ {model : Model},
      (∀ m ∈ model, ∃ m', aiModule step mask lr n m = .ok m') →
      ∃ model', approximate_isometry_optimize step model mask lr n = .ok model' := by
  intro model
  induction model with
  | nil => exact fun _ => ⟨[], rfl⟩
  | cons m rest ih =>
    intro hall
    obtain ⟨m', hm⟩ := hall m (by simp)
    obtain ⟨rest', hr⟩ := ih (fun x hx => hall x (by simp [hx]))
    exact ⟨m' :: rest', by simp only [approximate_isometry_optimize, hm, hr]⟩

theorem ai_ok_all {step : ℚ → Nat → List ℚ → List ℚ}
    {mask : Option Mask} {lr : ℚ} {n : Nat} :
    ∀ {model model' : Model},
      approximate_isometry_optimize step model mask lr n = .ok model' →
      ∀ m ∈ model, ∃ m', aiModule step mask lr n m = .ok m' := by
  intro model
  induction model with
  | nil => intro model' _ m hm; cases hm
  | cons m0 rest ih =>
    intro model' h m hm
    simp only [approximate_isometry_optimize] at h
    cases hm0 : aiModule step mask lr n m0 with
    | error e => rw [hm0] at h; cases h
    | ok m0' =>
      rw [hm0] at h
      cases hr : approximate_isometry_optimize step rest mask lr n with
      | error e => rw [hr] at h; cases h
      | ok rest' =>
        rcases List.mem_cons.1 hm with rfl | hmem
        · exact ⟨m0', hm0⟩
        · exact ih hr m hmem

theorem prune_falsy {draw drawOrth : String → Tensor → List ℚ}
    {orth : List ℚ → List ℚ} {step : ℚ → Nat → List ℚ → List ℚ}
    {args : Args} {model : Model} {maskStore : Mask}
    (h : pyTruthy args.reinit = false) :
    Pruner.prune draw drawOrth orth step args model maskStore = .ok model := by
  simp only [Pruner.prune]
  rw [if_neg (by simp [h])]

theorem prune_default {draw drawOrth : String → Tensor → List ℚ}
    {orth : List ℚ → List ℚ} {step : ℚ → Nat → List ℚ → List ℚ}
    {args : Args} {model : Model} {maskStore : Mask}
    (h : args.reinit = some "default") :
    Pruner.prune draw drawOrth orth step args model maskStore
      = .ok (_weights_init draw model) := by
  simp only [Pruner.prune, h]
  rw [if_pos (show pyTruthy (some "default") = true from by decide)]
  simp

theorem prune_orth {draw drawOrth : String → Tensor → List ℚ}
    {orth : List ℚ → List ℚ} {step : ℚ → Nat → List ℚ → List ℚ}
    {args : Args} {model : Model} {maskStore : Mask}
    (h : args.reinit = some "orth") :
    Pruner.prune draw drawOrth orth step args model maskStore
      = .ok (_weights_init_orthogonal drawOrth model) := by
  simp only [Pruner.prune, h]
  rw [if_pos (show pyTruthy (some "orth") = true from by decide)]
  simp

theorem prune_exact {draw drawOrth : String → Tensor → List ℚ}
    {orth : List ℚ → List ℚ} {step : ℚ → Nat → List ℚ → List ℚ}
    {args : Args} {model : Model} {maskStore : Mask}
    (h : args.reinit = some "exact_isometry") :
    Pruner.prune draw drawOrth orth step args model maskStore
      = .ok (exact_isometry_based_on_existing_weights orth model) := by
  simp only [Pruner.prune, h]
  rw [if_pos (show pyTruthy (some "exact_isometry") = true from by decide)]
  simp

theorem prune_approx {draw drawOrth : String → Tensor → List ℚ}
    {orth : List ℚ → List ℚ} {step : ℚ → Nat → List ℚ → List ℚ}
    {args : Args} {model : Model} {maskStore : Mask}
    (h : args.reinit = some "approximate_isometry") :
    Pruner.prune draw drawOrth orth step args model maskStore
      = approximate_isometry_optimize step model
          (if args.wg = "weight" then some maskStore else none) args.lr_AI 10000 := by
  simp only [Pruner.prune, h]
  rw [if_pos (show pyTruthy (some "approximate_isometry") = true from by decide)]
  simp

theorem prune_unsupported {draw drawOrth : String → Tensor → List ℚ}
    {orth : List ℚ → List ℚ} {step : ℚ → Nat → List ℚ → List ℚ}
    {args : Args} {model : Model} {maskStore : Mask}
    (ht : pyTruthy args.reinit = true)
    (h1 : args.reinit ≠ some "default") (h2 : args.reinit ≠ some "orth")
    (h3 : args.reinit ≠ some "exact_isometry")
    (h4 : args.reinit ≠ some "approximate_isometry") :
    Pruner.prune draw drawOrth orth step args model maskStore
      = .error "NotImplementedError" := by
  simp only [Pruner.prune]
  rw [if_pos ht, if_neg h1, if_neg h2, if_neg h3, if_neg h4]

theorem maskedZero_apply_mask_forward (mask : Mask) (model : Model) :
    maskedZero mask (apply_mask_forward mask model) := by
  intro m' hm' mt hlk j hj q hq
  simp only [apply_mask_forward, List.mem_map] at hm'
  obtain ⟨m, _, rfl⟩ := hm'
  cases hlk0 : mask.lookup m.name with
  | none =>
    simp only [amfModule, hlk0] at hlk
    cases hlk
  | some mt0 =>
    simp only [amfModule, hlk0] at hlk hq
    cases hlk
    exact tmul_getElem_zero _ _ _ _ hq hj

theorem ai_maskedZero_conv {step : ℚ → Nat → List ℚ → List ℚ} {lr : ℚ}
    {mk : Mask} {n : Nat} (hn : 1 ≤ n) :
    ∀ {model model' : Model},
      approximate_isometry_optimize step model (some mk) lr n = .ok model' →
      ∀ m' ∈ model', isConvOrLinear m'.kind = true →
        ∀ mt, mk.lookup m'.name = some mt →
          ∀ j : Nat, mt.data[j]? = some 0 →
            ∀ q, m'.weight.data[j]? = some q → q = 0 := by
  intro model model' h m' hm' hckind mt hlk j hj q hq
  obtain ⟨⟨i, hi'⟩, rfl⟩ := List.mem_iff_get.1 hm'
  obtain ⟨hlen, hget⟩ := ai_ok_pointwise h
  have hi : i < model.length := hlen ▸ hi'
  have hmod := hget i hi hi'
  obtain ⟨hname, hkind, _⟩ := aiModule_ok_frame hmod
  rw [aiModule, if_pos (by rw [← hkind]; exact hckind)] at hmod
  cases ho : optimize step lr (some mk) (model.get ⟨i, hi⟩).name n
      (model.get ⟨i, hi⟩).weight with
  | error e => rw [ho] at hmod; cases hmod
  | ok p =>
    rw [ho] at hmod
    obtain ⟨w1, tr⟩ := p
    simp only [Except.ok.injEq] at hmod
    rw [hname] at hlk
    obtain ⟨res, hres, _, hform⟩ := @optimize_lookup_ok step lr mk
      (model.get ⟨i, hi⟩).name mt n (model.get ⟨i, hi⟩).weight hlk
    rw [ho] at hres
    cases hres
    obtain ⟨x, hx⟩ := hform hn
    have hx2 : w1.data = tmul x mt.data := hx
    rw [← hmod] at hq
    have hq2 : (tmul x mt.data)[j]? = some q := hx2 ▸ hq
    exact tmul_getElem_zero _ _ _ _ hq2 hj

theorem ai_none_ok {step : ℚ → Nat → List ℚ → List ℚ} {lr : ℚ} {n : Nat}
    (model : Model) :
    ∃ model', approximate_isometry_optimize step model none lr n = .ok model' := by
  apply ai_all_ok
  intro m _
  by_cases hc : isConvOrLinear m.kind = true
  · obtain ⟨res, hres⟩ := @optimize_none_ok step lr m.name n m.weight
    obtain ⟨r1, r2⟩ := res
    exact ⟨{ m with weight := r1 }, by simp only [aiModule, hc, if_true, hres]⟩
  · exact ⟨m, by simp only [aiModule, if_neg hc]⟩

theorem ai_covered_ok {step : ℚ → Nat → List ℚ → List ℚ} {lr : ℚ} {n : Nat}
    {mk : Mask} {model : Model}
    (hcov : ∀ m ∈ model, isConvOrLinear m.kind = true →
      (mk.lookup m.name).isSome = true) :
    ∃ model', approximate_isometry_optimize step model (some mk) lr n = .ok model' := by
  apply ai_all_ok
  intro m hm
  by_cases hc : isConvOrLinear m.kind = true
  · have hs := hcov m hm hc
    cases hl : mk.lookup m.name with
    | none => rw [hl] at hs; cases hs
    | some mt =>
      obtain ⟨res, hres, _, _⟩ := @optimize_lookup_ok step lr mk m.name mt n m.weight hl
      obtain ⟨r1, r2⟩ := res
      exact ⟨{ m with weight := r1 }, by simp only [aiModule, hc, if_true, hres]⟩
  · exact ⟨m, by simp only [aiModule, if_neg hc]⟩

theorem ai_missing_err {step : ℚ → Nat → List ℚ → List ℚ} {lr : ℚ} {n : Nat}
    {mk : Mask} {model : Model} (hn : 1 ≤ n) (m : NNModule) (hm : m ∈ model)
    (hc : isConvOrLinear m.kind = true) (hl : mk.lookup m.name = none) :
    ∃ e, approximate_isometry_optimize step model (some mk) lr n = .error e := by
  cases hres : approximate_isometry_optimize step model (some mk) lr n with
  | error e => exact ⟨e, rfl⟩
  | ok model' =>
    obtain ⟨m', hm'⟩ := ai_ok_all hres m hm
    rw [aiModule, if_pos hc, optimize_lookup_none hl hn] at hm'
    cases hm'

theorem get_map_frame (f : NNModule → NNModule)
    (hf : ∀ m, (f m).name = m.name ∧ (f m).kind = m.kind
      ∧ (f m).weight.shape = m.weight.shape)
    (model : Model) : framePreserved model (model.map f) := by
  refine ⟨List.length_map _ _, fun i hi hi' => ?_⟩
  have hg : (model.map f).get ⟨i, hi'⟩ = f (model.get ⟨i, hi⟩) := by
    simp [List.get_eq_getElem, List.getElem_map]
  rw [hg]
  exact hf _

theorem ai_framePreserved {step : ℚ → Nat → List ℚ → List ℚ} {lr : ℚ}
    {n : Nat} {mask : Option Mask} {model model' : Model}
    (h : approximate_isometry_optimize step model mask lr n = .ok model') :
    framePreserved model model' := by
  obtain ⟨hlen, hget⟩ := ai_ok_pointwise h
  exact ⟨hlen, fun i hi hi' => aiModule_ok_frame (hget i hi hi')⟩

theorem map_idem {f : NNModule → NNModule} (hf : ∀ m, f (f m) = f m) :
    ∀ l : Model, (l.map f).map f = l.map f
  | [] => rfl
  | m :: rest => by simp only [List.map_cons, hf m, map_idem hf rest]

theorem amfModule_idem (mask : Mask) (hb : binaryMask mask) (m : NNModule) :
    amfModule mask (amfModule mask m) = amfModule mask m := by
  cases hl : mask.lookup m.name with
  | none =>
    have h1 : amfModule mask m = m := by simp only [amfModule, hl]
    rw [h1]
    exact h1
  | some mt =>
    have hbin : ∀ x ∈ mt.data, x = 0 ∨ x = 1 := hb (m.name, mt) (lookup_mem hl)
    have hid := tmul_idem m.weight.data mt.data hbin
    have h1 : amfModule mask m = { m with weight :=
        { shape := m.weight.shape, data := tmul m.weight.data mt.data } } := by
      simp only [amfModule, hl]
    rw [h1]
    have hl2 : mask.lookup ({ m with weight :=
        { shape := m.weight.shape, data := tmul m.weight.data mt.data } }
          : NNModule).name = some mt := hl
    simp only [amfModule, hl2, hid]

/-! ### Claim theorems -/

/-- C1 counterexample: in unstructured mode (`wg = "weight"`), running
`Pruner.prune` with the supported reinit strategy `default` on a model whose
only layer has its single weight masked out (mask entry 0) returns a model
in which that masked-out entry is 1, not 0: `_weights_init` redraws every
entry with no reference to the mask, so the claim's invariant fails at
`prune`'s return. -/
theorem prune_masked_zero_cex :
    Pruner.prune drawOne drawOne id stepId
        { reinit := some "default", wg := "weight", lr_AI := 1 } [cConv] cMask
      = .ok [{ name := "conv1", kind := .conv2d, weight := { shape := [1, 1], data := [1] } }]
    ∧ cMask.lookup "conv1" = some cMaskT
    ∧ cMaskT.data[0]? = some 0
    ∧ ¬ maskedZero cMask
        [{ name := "conv1", kind := .conv2d, weight := { shape := [1, 1], data := [1] } }] := by
  refine ⟨?_, rfl, rfl, ?_⟩
  · rw [prune_default rfl]
    rfl
  · intro hmz
    have h1 := hmz _ (List.mem_singleton.2 rfl) cMaskT rfl 0 rfl 1 rfl
    exact one_ne_zero h1

/-- C1 (amended): in unstructured mode (`args.wg = "weight"`, mask domain
restricted to Conv/Linear layers), only the `approximate_isometry` strategy
leaves every masked-out entry at logical zero in the model `Pruner.prune`
returns; the `default`, `orth` and `exact_isometry` strategies completely
reinitialize the weights with no reference to the mask (the training driver
re-zeroes pruned entries afterwards via `apply_mask_forward`). -/
theorem prune_masked_zero_amended (draw drawOrth : String → Tensor → List ℚ)
    (orth : List ℚ → List ℚ) (step : ℚ → Nat → List ℚ → List ℚ)
    (args : Args) (model : Model) (maskStore : Mask)
    (hw : args.wg = "weight")
    (hcl : ∀ m ∈ model,
      (maskStore.lookup m.name).isSome = true → isConvOrLinear m.kind = true) :
    (args.reinit = some "approximate_isometry" →
      ∀ model', Pruner.prune draw drawOrth orth step args model maskStore = .ok model' →
        maskedZero maskStore model')
    ∧ (args.reinit = some "default" →
        Pruner.prune draw drawOrth orth step args model maskStore
          = .ok (_weights_init draw model))
    ∧ (args.reinit = some "orth" →
        Pruner.prune draw drawOrth orth step args model maskStore
          = .ok (_weights_init_orthogonal drawOrth model))
    ∧ (args.reinit = some "exact_isometry" →
        Pruner.prune draw drawOrth orth step args model maskStore
          = .ok (exact_isometry_based_on_existing_weights orth model)) := by
  refine ⟨?_, prune_default, prune_orth, prune_exact⟩
  intro ha model' hok
  rw [prune_approx ha, if_pos hw] at hok
  intro m' hm' mt hlk j hj q hq
  have hck : isConvOrLinear m'.kind = true := by
    obtain ⟨⟨i, hi'⟩, rfl⟩ := List.mem_iff_get.1 hm'
    obtain ⟨hlen, hget⟩ := ai_ok_pointwise hok
    have hi : i < model.length := hlen ▸ hi'
    obtain ⟨hname, hkind, _⟩ := aiModule_ok_frame (hget i hi hi')
    rw [hkind]
    refine hcl _ (List.get_mem model i hi) ?_
    rw [← hname, hlk]
    rfl
  exact ai_maskedZero_conv (by norm_num) hok m' hm' hck mt hlk j hj q hq

/-- C1 witness: the amended theorem applied at a concrete one-layer model in
mask mode with the `approximate_isometry` strategy. -/
theorem prune_masked_zero_amended_witness :
    ((({ reinit := some "approximate_isometry", wg := "weight", lr_AI := 1 } : Args)).wg
        = "weight")
    ∧ (∀ m ∈ [cConv], (cMask.lookup m.name).isSome = true → isConvOrLinear m.kind = true)
    ∧ ((some "approximate_isometry" = some "approximate_isometry" →
        ∀ model', Pruner.prune drawOne drawOne id stepId
            { reinit := some "approximate_isometry", wg := "weight", lr_AI := 1 }
            [cConv] cMask = .ok model' →
          maskedZero cMask model')
      ∧ (some "approximate_isometry" = some "default" →
          Pruner.prune drawOne drawOne id stepId
              { reinit := some "approximate_isometry", wg := "weight", lr_AI := 1 }
              [cConv] cMask = .ok (_weights_init drawOne [cConv]))
      ∧ (some "approximate_isometry" = some "orth" →
          Pruner.prune drawOne drawOne id stepId
              { reinit := some "approximate_isometry", wg := "weight", lr_AI := 1 }
              [cConv] cMask = .ok (_weights_init_orthogonal drawOne [cConv]))
      ∧ (some "approximate_isometry" = some "exact_isometry" →
          Pruner.prune drawOne drawOne id stepId
              { reinit := some "approximate_isometry", wg := "weight", lr_AI := 1 }
              [cConv] cMask
            = .ok (exact_isometry_based_on_existing_weights id [cConv]))) :=
  ⟨rfl, by decide,
    prune_masked_zero_amended drawOne drawOne id stepId
      { reinit := some "approximate_isometry", wg := "weight", lr_AI := 1 }
      [cConv] cMask rfl (by decide)⟩

/-- C2: with a non-`None` mask whose lookup at `name` yields `mt`, (i) every
successful iteration of the inner loop ends with the elementwise mask
multiplication, so its output is 0 wherever `mt` is 0; (ii) for `n ≥ 1`
iterations the final optimized tensor is 0 wherever `mt` is 0; and (iii) in
the model written back by `approximate_isometry_optimize`, every
Conv/Linear layer named `name` is 0 wherever `mt` is 0. -/
theorem ai_mask_reapplied (step : ℚ → Nat → List ℚ → List ℚ) (lr : ℚ)
    (mk : Mask) (name : String) (mt : Tensor) (n : Nat)
    (hlk : mk.lookup name = some mt) (hn : 1 ≤ n) :
    (∀ (r c i : Nat) (w res1 : List ℚ) (loss : ℚ),
        optimizeIter step lr r c (some mk) name w i = .ok (res1, loss) →
        ∀ j : Nat, mt.data[j]? = some 0 → ∀ q, res1[j]? = some q → q = 0)
    ∧ (∀ (w : Tensor) (res : Tensor × List ℚ),
        optimize step lr (some mk) name n w = .ok res →
        ∀ j : Nat, mt.data[j]? = some 0 → ∀ q, res.1.data[j]? = some q → q = 0)
    ∧ (∀ (model model' : Model),
        approximate_isometry_optimize step model (some mk) lr n = .ok model' →
        ∀ m' ∈ model', m'.name = name → isConvOrLinear m'.kind = true →
          ∀ j : Nat, mt.data[j]? = some 0 →
            ∀ q, m'.weight.data[j]? = some q → q = 0) := by
  refine ⟨?_, ?_, ?_⟩
  · intro r c i w res1 loss hit j hj q hq
    simp only [optimizeIter, hlk, Except.ok.injEq, Prod.mk.injEq] at hit
    obtain ⟨h1, h2⟩ := hit
    rw [← h1] at hq
    exact tmul_getElem_zero _ _ _ _ hq hj
  · intro w res hres j hj q hq
    obtain ⟨res0, hres0, _, hform⟩ := @optimize_lookup_ok step lr mk name mt n w hlk
    rw [hres] at hres0
    cases hres0
    obtain ⟨x, hx⟩ := hform hn
    rw [hx] at hq
    exact tmul_getElem_zero _ _ _ _ hq hj
  · intro model model' hok m' hm' hname hck j hj q hq
    exact ai_maskedZero_conv hn hok m' hm' hck mt (by rw [hname]; exact hlk) j hj q hq

/-- C2 witness: the mask-reapplication theorem applied at a concrete mask,
layer name and single-iteration budget. -/
theorem ai_mask_reapplied_witness :
    cMask.lookup "conv1" = some cMaskT
    ∧ (1 : Nat) ≤ 1
    ∧ ((∀ (r c i : Nat) (w res1 : List ℚ) (loss : ℚ),
          optimizeIter stepId 1 r c (some cMask) "conv1" w i = .ok (res1, loss) →
          ∀ j : Nat, cMaskT.data[j]? = some 0 → ∀ q, res1[j]? = some q → q = 0)
      ∧ (∀ (w : Tensor) (res : Tensor × List ℚ),
          optimize stepId 1 (some cMask) "conv1" 1 w = .ok res →
          ∀ j : Nat, cMaskT.data[j]? = some 0 → ∀ q, res.1.data[j]? = some q → q = 0)
      ∧ (∀ (model model' : Model),
          approximate_isometry_optimize stepId model (some cMask) 1 1 = .ok model' →
          ∀ m' ∈ model', m'.name = "conv1" → isConvOrLinear m'.kind = true →
            ∀ j : Nat, cMaskT.data[j]? = some 0 →
              ∀ q, m'.weight.data[j]? = some q → q = 0)) :=
  ⟨rfl, by decide, ai_mask_reapplied stepId 1 cMask "conv1" cMaskT 1 rfl (by decide)⟩

/-- C3 counterexample: with the supported strategy name
`approximate_isometry` in mask mode, `Pruner.prune` on a model whose only
(Conv2d) layer is missing from the mask raises a `KeyError` — a fatal error
for a supported strategy name, refuting the claimed "if and only if". -/
theorem prune_error_iff_cex :
    Pruner.prune drawOne drawOne id stepId
        { reinit := some "approximate_isometry", wg := "weight", lr_AI := 1 } [cConv] []
      = .error ("KeyError: " ++ "conv1") := by
  rw [prune_approx rfl, if_pos rfl]
  show approximate_isometry_optimize stepId [cConv] (some []) 1 10000
      = .error ("KeyError: " ++ "conv1")
  have ho : optimize stepId 1 (some ([] : Mask)) cConv.name 10000 cConv.weight
      = .error ("KeyError: " ++ cConv.name) :=
    optimize_lookup_none rfl (by norm_num)
  have hmod : aiModule stepId (some ([] : Mask)) 1 10000 cConv
      = .error ("KeyError: " ++ "conv1") := by
    rw [aiModule, if_pos (show isConvOrLinear cConv.kind = true from rfl), ho]
    rfl
  rw [approximate_isometry_optimize, hmod]

/-- C3 (amended): `Pruner.prune` fails (raises) if and only if either
`args.reinit` is truthy and none of the four supported names
(`NotImplementedError`), or the strategy is `approximate_isometry` in mask
mode and some Conv/Linear module name of the model is missing from the mask
(a per-iteration `KeyError`); in all other cases it completes and returns
the model. -/
theorem prune_error_iff (draw drawOrth : String → Tensor → List ℚ)
    (orth : List ℚ → List ℚ) (step : ℚ → Nat → List ℚ → List ℚ)
    (args : Args) (model : Model) (maskStore : Mask) :
    (∃ e, Pruner.prune draw drawOrth orth step args model maskStore = .error e)
    ↔ ((pyTruthy args.reinit = true ∧ args.reinit ≠ some "default"
          ∧ args.reinit ≠ some "orth" ∧ args.reinit ≠ some "exact_isometry"
          ∧ args.reinit ≠ some "approximate_isometry")
        ∨ (args.reinit = some "approximate_isometry" ∧ args.wg = "weight"
          ∧ ∃ m ∈ model, isConvOrLinear m.kind = true
              ∧ maskStore.lookup m.name = none)) := by
  by_cases ht : pyTruthy args.reinit = true
  · by_cases hd : args.reinit = some "default"
    · rw [prune_default hd]
      constructor
      · rintro ⟨e, he⟩
        cases he
      · rintro (⟨_, hne, _⟩ | ⟨ha, _⟩)
        · exact absurd hd hne
        · exact absurd (hd.symm.trans ha) (by decide)
    · by_cases horth : args.reinit = some "orth"
      · rw [prune_orth horth]
        constructor
        · rintro ⟨e, he⟩
          cases he
        · rintro (⟨_, _, hne, _⟩ | ⟨ha, _⟩)
          · exact absurd horth hne
          · exact absurd (horth.symm.trans ha) (by decide)
      · by_cases hex : args.reinit = some "exact_isometry"
        · rw [prune_exact hex]
          constructor
          · rintro ⟨e, he⟩
            cases he
          · rintro (⟨_, _, _, hne, _⟩ | ⟨ha, _⟩)
            · exact absurd hex hne
            · exact absurd (hex.symm.trans ha) (by decide)
        · by_cases hap : args.reinit = some "approximate_isometry"
          · rw [prune_approx hap]
            by_cases hw : args.wg = "weight"
            · rw [if_pos hw]
              constructor
              · rintro ⟨e, he⟩
                refine Or.inr ⟨hap, hw, ?_⟩
                by_contra hno
                push_neg at hno
                have hcov : ∀ m ∈ model, isConvOrLinear m.kind = true →
                    (maskStore.lookup m.name).isSome = true := by
                  intro m hm hc
                  cases hl : maskStore.lookup m.name with
                  | none => exact absurd hl (hno m hm hc)
                  | some mt => rfl
                obtain ⟨model', hok⟩ := ai_covered_ok hcov
                rw [hok] at he
                cases he
              · rintro (⟨_, _, _, _, habs⟩ | ⟨_, _, m, hm, hc, hl⟩)
                · exact absurd hap habs
                · exact ai_missing_err (by norm_num) m hm hc hl
            · rw [if_neg hw]
              constructor
              · rintro ⟨e, he⟩
                obtain ⟨model', hok⟩ := ai_none_ok model
                rw [hok] at he
                cases he
              · rintro (⟨_, _, _, _, habs⟩ | ⟨_, hw2, _⟩)
                · exact absurd hap habs
                · exact absurd hw2 hw
          · rw [prune_unsupported ht hd horth hex hap]
            exact ⟨fun _ => Or.inl ⟨ht, hd, horth, hex, hap⟩, fun _ => ⟨_, rfl⟩⟩
  · have hb : pyTruthy args.reinit = false := by
      cases hpt : pyTruthy args.reinit
      · rfl
      · exact absurd hpt ht
    rw [prune_falsy hb]
    constructor
    · rintro ⟨e, he⟩
      cases he
    · rintro (⟨h1, _⟩ | ⟨ha, _⟩)
      · exact absurd h1 ht
      · exact absurd (show pyTruthy args.reinit = true by rw [ha]; decide) ht

/-- C4: for every reinit strategy, a successful `Pruner.prune` preserves
the model frame: the same module count and, per position, unchanged module
name, kind and weight-tensor shape — in particular for every visited
convolutional and fully-connected layer. -/
theorem prune_shape_preserved (draw drawOrth : String → Tensor → List ℚ)
    (orth : List ℚ → List ℚ) (step : ℚ → Nat → List ℚ → List ℚ)
    (args : Args) (model : Model) (maskStore : Mask) (model' : Model)
    (h : Pruner.prune draw drawOrth orth step args model maskStore = .ok model') :
    framePreserved model model' := by
  by_cases ht : pyTruthy args.reinit = true
  · by_cases hd : args.reinit = some "default"
    · rw [prune_default hd] at h
      cases h
      unfold _weights_init
      refine get_map_frame _ (fun m => ?_) model
      by_cases hc : isConvOrLinear m.kind = true
      · simp [hc]
      · simp [hc]
    · by_cases horth : args.reinit = some "orth"
      · rw [prune_orth horth] at h
        cases h
        unfold _weights_init_orthogonal
        refine get_map_frame _ (fun m => ?_) model
        by_cases hc : isConvOrLinear m.kind = true
        · simp [hc]
        · simp [hc]
      · by_cases hex : args.reinit = some "exact_isometry"
        · rw [prune_exact hex] at h
          cases h
          unfold exact_isometry_based_on_existing_weights
          refine get_map_frame _ (fun m => ?_) model
          by_cases hc : isConvOrLinear m.kind = true
          · simp [hc, orthogonalize_weights]
          · simp [hc]
        · by_cases hap : args.reinit = some "approximate_isometry"
          · rw [prune_approx hap] at h
            exact ai_framePreserved h
          · rw [prune_unsupported ht hd horth hex hap] at h
            cases h
  · have hb : pyTruthy args.reinit = false := by
      cases hpt : pyTruthy args.reinit
      · rfl
      · exact absurd hpt ht
    rw [prune_falsy hb] at h
    cases h
    exact ⟨rfl, fun i hi hi' => ⟨rfl, rfl, rfl⟩⟩

/-- C4 witness: the shape-preservation theorem applied to a concrete run
(falsy `reinit`, so `prune` returns the model unchanged). -/
theorem prune_shape_preserved_witness :
    Pruner.prune drawOne drawOne id stepId
        { reinit := none, wg := "weight", lr_AI := 1 } [cConv] cMask = .ok [cConv]
    ∧ framePreserved [cConv] [cConv] :=
  ⟨rfl, prune_shape_preserved drawOne drawOne id stepId
    { reinit := none, wg := "weight", lr_AI := 1 } [cConv] cMask [cConv] rfl⟩

/-- C5: the iterative optimizer runs exactly its fixed budget: every
successful `optimize` run computes exactly `n_iter` per-iteration losses
(no early-exit convergence check — `step`, and hence every loss value, is
universally quantified), and non-convergence is never an error: with no
mask, `approximate_isometry_optimize` always returns a model, writing the
partially optimized weights back whatever the final loss. -/
theorem iteration_budget (step : ℚ → Nat → List ℚ → List ℚ) (lr : ℚ)
    (name : String) (n : Nat) (w : Tensor) :
    (∀ (mask : Option Mask) (res : Tensor × List ℚ),
        optimize step lr mask name n w = .ok res → res.2.length = n)
    ∧ ∀ model : Model, ∃ model',
        approximate_isometry_optimize step model none lr n = .ok model' :=
  ⟨fun _ _ h => optimize_ok_len h, fun model => ai_none_ok model⟩

/-- C5 witness: a concrete two-iteration run (whose loss, `gramLoss 1 1 [5]
= 576`, never converges) still returns, with exactly two recorded losses. -/
theorem iteration_budget_witness :
    optimize stepId 1 none "conv1" 2 cConv.weight
        = .ok ({ shape := [1, 1], data := [5] }, [gramLoss 1 1 [5], gramLoss 1 1 [5]])
    ∧ ((({ shape := [1, 1], data := [5] } : Tensor),
        [gramLoss 1 1 [5], gramLoss 1 1 [5]])).2.length = 2 :=
  ⟨by rfl, (iteration_budget stepId 1 "conv1" 2 cConv.weight).1 none _ (by rfl)⟩

/-- C6: in unstructured mode during finetuning (`args.method` truthy and
`args.wg == 'weight'`), every training iteration is exactly an optimizer
step followed by `apply_mask_forward`; hence the model each iteration hands
to the next forward pass has zeros at all masked-out positions, and so does
the state after any positive number of iterations (epochs compose these
same iterations). -/
theorem train_mask_after_step (optimStep : Nat → Model → Model)
    (method : Option String) (wg : String) (mask : Mask)
    (hm : pyTruthy method = true) (hw : wg = "weight") :
    (∀ (i : Nat) (mdl : Model),
        trainIter optimStep method wg mask i mdl
          = apply_mask_forward mask (optimStep i mdl))
    ∧ (∀ (i : Nat) (mdl : Model),
        maskedZero mask (trainIter optimStep method wg mask i mdl))
    ∧ (∀ (k : Nat) (model0 : Model), 1 ≤ k →
        maskedZero mask (trainSteps optimStep method wg mask k model0)) := by
  have hguard : ∀ (i : Nat) (mdl : Model),
      trainIter optimStep method wg mask i mdl
        = apply_mask_forward mask (optimStep i mdl) := by
    intro i mdl
    simp [trainIter, hm, hw]
  refine ⟨hguard, fun i mdl => ?_, fun k model0 hk => ?_⟩
  · rw [hguard]
    exact maskedZero_apply_mask_forward mask _
  · cases k with
    | zero => omega
    | succ j =>
      show maskedZero mask (trainIter optimStep method wg mask j
        (trainSteps optimStep method wg mask j model0))
      rw [hguard]
      exact maskedZero_apply_mask_forward mask _

/-- C6 witness: the theorem applied at a concrete pruning method, mode and
mask. -/
theorem train_mask_after_step_witness :
    pyTruthy (some "L1") = true
    ∧ ("weight" : String) = "weight"
    ∧ ((∀ (i : Nat) (mdl : Model),
          trainIter (fun _ m => m) (some "L1") "weight" cMask i mdl
            = apply_mask_forward cMask ((fun (_ : Nat) (m : Model) => m) i mdl))
      ∧ (∀ (i : Nat) (mdl : Model),
          maskedZero cMask (trainIter (fun _ m => m) (some "L1") "weight" cMask i mdl))
      ∧ (∀ (k : Nat) (model0 : Model), 1 ≤ k →
          maskedZero cMask (trainSteps (fun _ m => m) (some "L1") "weight" cMask k model0))) :=
  ⟨by decide, rfl,
    train_mask_after_step (fun _ m => m) (some "L1") "weight" cMask (by decide) rfl⟩

/-- C7: the Mask-reapplication step is idempotent: for every model and
every binary (0/1-valued) mask, applying `apply_mask_forward` twice with no
optimizer step in between equals applying it once. -/
theorem apply_mask_forward_idem (mask : Mask) (model : Model)
    (hb : binaryMask mask) :
    apply_mask_forward mask (apply_mask_forward mask model)
      = apply_mask_forward mask model := by
  unfold apply_mask_forward
  exact map_idem (amfModule_idem mask hb) model

/-- C7 witness: idempotence at a concrete binary mask and model. -/
theorem apply_mask_forward_idem_witness :
    binaryMask cMask
    ∧ apply_mask_forward cMask (apply_mask_forward cMask [cConv])
        = apply_mask_forward cMask [cConv] :=
  ⟨by unfold binaryMask; decide, apply_mask_forward_idem cMask [cConv] (by unfold binaryMask; decide)⟩

/-- C8: the reported compression ratio equals
`1 / (1 − (params_before − params_after)/params_before)`, the speedup ratio
is the same formula over FLOP counts, and for positive counts the
compression ratio equals `params_before / params_after`. -/
theorem compression_speedup_formula (nB nA fB fA : ℚ)
    (hB : 0 < nB) (hA : 0 < nA) :
    compression_ratio nB nA = 1 / (1 - (nB - nA) / nB)
    ∧ speedup_ratio fB fA = 1 / (1 - (fB - fA) / fB)
    ∧ compression_ratio nB nA = nB / nA := by
  refine ⟨rfl, rfl, ?_⟩
  have hB0 : nB ≠ 0 := ne_of_gt hB
  unfold compression_ratio ratio_param
  rw [show (1 : ℚ) - (nB - nA) / nB = nA / nB by field_simp, one_div_div]

/-- C8 witness: the formulas at concrete counts 4 → 2 params, 8 → 2 flops. -/
theorem compression_speedup_formula_witness :
    (0 : ℚ) < 4
    ∧ (0 : ℚ) < 2
    ∧ (compression_ratio 4 2 = 1 / (1 - (4 - 2) / 4)
      ∧ speedup_ratio 8 2 = 1 / (1 - (8 - 2) / 8)
      ∧ compression_ratio 4 2 = 4 / 2) :=
  ⟨by norm_num, by norm_num,
    compression_speedup_formula 4 2 8 2 (by norm_num) (by norm_num)⟩

/-- C9 counterexample: the iteration count of the approximate-isometry call
inside `Pruner.prune` is the hard-coded constant 10000: two configurations
differing in mode and learning rate both call
`approximate_isometry_optimize` with `n_iter = 10000`, and the
configuration surface read by `prune` has no iteration-count field at all —
refuting that the iteration count is taken from the configuration. -/
theorem isometry_n_iter_cex :
    Pruner.prune drawOne drawOne id stepId
        { reinit := some "approximate_isometry", wg := "weight", lr_AI := 1 } [cConv] cMask
      = approximate_isometry_optimize stepId [cConv] (some cMask) 1 10000
    ∧ Pruner.prune drawOne drawOne id stepId
        { reinit := some "approximate_isometry", wg := "nonweight", lr_AI := 2 } [cConv] cMask
      = approximate_isometry_optimize stepId [cConv] none 2 10000 := by
  constructor
  · rw [prune_approx rfl, if_pos rfl]
  · rw [prune_approx rfl, if_neg (by decide)]

/-- C9 (amended): the approximate-isometry run takes its learning rate from
the configuration (`args.lr_AI`) as claimed, but its iteration count is the
fixed constant 10000 hard-coded at the call site, not a configured value. -/
theorem isometry_config_consumption (draw drawOrth : String → Tensor → List ℚ)
    (orth : List ℚ → List ℚ) (step : ℚ → Nat → List ℚ → List ℚ)
    (args : Args) (model : Model) (maskStore : Mask)
    (h : args.reinit = some "approximate_isometry") :
    Pruner.prune draw drawOrth orth step args model maskStore
      = approximate_isometry_optimize step model
          (if args.wg = "weight" then some maskStore else none) args.lr_AI 10000 :=
  prune_approx h

/-- C9 witness: the amended theorem at a concrete configuration with
`lr_AI = 3`. -/
theorem isometry_config_consumption_witness :
    (({ reinit := some "approximate_isometry", wg := "weight", lr_AI := 3 } : Args)).reinit
        = some "approximate_isometry"
    ∧ Pruner.prune drawOne drawOne id stepId
        { reinit := some "approximate_isometry", wg := "weight", lr_AI := 3 } [cConv] cMask
      = approximate_isometry_optimize stepId [cConv]
          (if (({ reinit := some "approximate_isometry", wg := "weight", lr_AI := 3 }
              : Args)).wg = "weight" then some cMask else none)
          (({ reinit := some "approximate_isometry", wg := "weight", lr_AI := 3 }
              : Args)).lr_AI 10000 :=
  ⟨rfl, isometry_config_consumption drawOne drawOne id stepId
    { reinit := some "approximate_isometry", wg := "weight", lr_AI := 3 }
    [cConv] cMask rfl⟩

/-- C10: calling `approximate_isometry_optimize` with a non-`None` mask
requires every Conv/Linear module name to be a key of the mask: under that
precondition the pass succeeds (the lookup-error branch is unreachable),
while any Conv/Linear module whose name is absent makes the per-iteration
lookup fail with a `KeyError` (for any positive iteration budget) instead
of skipping the mask application. -/
theorem ai_mask_domain_precondition (step : ℚ → Nat → List ℚ → List ℚ)
    (mk : Mask) (lr : ℚ) (n : Nat) (model : Model) (hn : 1 ≤ n) :
    ((∀ m ∈ model, isConvOrLinear m.kind = true →
        (mk.lookup m.name).isSome = true) →
      ∃ model', approximate_isometry_optimize step model (some mk) lr n = .ok model')
    ∧ (∀ m ∈ model, isConvOrLinear m.kind = true → mk.lookup m.name = none →
      ∃ e, approximate_isometry_optimize step model (some mk) lr n = .error e) :=
  ⟨fun hcov => ai_covered_ok hcov, fun m hm hc hl => ai_missing_err hn m hm hc hl⟩

/-- C10 witness: the precondition theorem at a concrete model, mask and
single-iteration budget. -/
theorem ai_mask_domain_precondition_witness :
    (1 : Nat) ≤ 1
    ∧ (((∀ m ∈ [cConv], isConvOrLinear m.kind = true →
          (cMask.lookup m.name).isSome = true) →
        ∃ model', approximate_isometry_optimize stepId [cConv] (some cMask) 1 1
          = .ok model')
      ∧ (∀ m ∈ [cConv], isConvOrLinear m.kind = true → cMask.lookup m.name = none →
        ∃ e, approximate_isometry_optimize stepId [cConv] (some cMask) 1 1
          = .error e)) :=
  ⟨by decide, ai_mask_domain_precondition stepId cMask 1 1 [cConv] (by decide)⟩

end SmilePruning
